import Mathlib

/-!
Verification of the MiniLuma agent-orchestration core against its
natural-language specification.

The development shallowly embeds the Python source of the repository:

* `src/core/reactor.py`   — the Reason-Act-Observe loop (`Reactor`)
* `src/core/context.py`   — bounded conversation history (`Context`)
* `src/core/mcp_memory.py`— two-tier memory (`MCPMemoryManager`)
* `src/core/mcp.py`       — tool schema export (`MCPTool` / `MCPToolKit`)
* `src/core/planner.py`   — task planning fallback (`TaskPlanner`)

Python's dynamically typed values are modelled by the inductive `PyVal`.
Exceptions are modelled by `Except String` (the string naming the raised
exception); attribute and hashability errors of the interpreter itself are
raised exactly where the source would raise them.  External collaborators
(the LLM service, `json.loads`, the regex extraction of fenced code
blocks, id generation) are taken as function parameters, so that every
theorem quantifies over all of their behaviours.
-/

namespace Miniluma

/-- Model of a Python runtime value, as produced by `json.loads` and
manipulated by the Reactor loop. -/
inductive PyVal where
  | pnone : PyVal
  | pbool (b : Bool) : PyVal
  | pint (n : Int) : PyVal
  | pstr (s : String) : PyVal
  | plist (xs : List PyVal) : PyVal
  | pdict (kvs : List (String × PyVal)) : PyVal

/-- Lookup of a key in a Python dict (modelled as an association list;
Python dicts have unique keys, so first-match lookup is exact). -/
def pyLookup (kvs : List (String × PyVal)) (k : String) : Option PyVal :=
  (kvs.find? (fun p => p.1 = k)).map (fun p => p.2)

/-- `d.get(k, default)` on a dict. -/
def pyGetD (kvs : List (String × PyVal)) (k : String) (dflt : PyVal) : PyVal :=
  (pyLookup kvs k).getD dflt

/-- `k in d` on a dict. -/
def pyHasKey (kvs : List (String × PyVal)) (k : String) : Bool :=
  (pyLookup kvs k).isSome

/-- Key membership test lifted to a `PyVal` that is expected to be a dict. -/
def pyValHasKey (v : PyVal) (k : String) : Bool :=
  match v with
  | .pdict kvs => pyHasKey kvs k
  | _ => false

/-- Python `==` comparison of a value against a string literal. -/
def isStrVal (v : PyVal) (s : String) : Bool :=
  match v with
  | .pstr t => t = s
  | _ => false

/-- A Python value is hashable (usable in a dict membership test) unless it
is a list or a dict; `x in some_dict` raises `TypeError` otherwise. -/
def hashable (v : PyVal) : Bool :=
  match v with
  | .plist _ => false
  | .pdict _ => false
  | _ => true

/-- A Python value is a dict. -/
def isDict (v : PyVal) : Bool :=
  match v with
  | .pdict _ => true
  | _ => false

/-! ## Reactor (src/core/reactor.py) -/

/-- A registered tool callable: receives the keyword-argument dict and
either returns a value or raises (modelled by `Except.error`). -/
def PyTool : Type := List (String × PyVal) → Except String PyVal

/-- `Reactor._reason`, lines 181-193 of src/core/reactor.py: try to parse
the model content as JSON; on `json.JSONDecodeError` fall open to a
synthetic `final_response` decision carrying the raw text.  `jsonLoads`
abstracts `json.loads` restricted to returning `none` exactly on a decode
failure. -/
def reason (jsonLoads : String → Option PyVal) (content : String) : PyVal :=
  match jsonLoads content with
  | some v => v
  | none =>
      .pdict [("action_type", .pstr "final_response"),
              ("response", .pstr content),
              ("reasoning", .pstr "return raw LLM response")]

/-- Tool-name extraction of `Reactor._execute_tool` (alias tolerance for
`tool_name` / `tool`). -/
def toolNameOf (thought : List (String × PyVal)) : PyVal :=
  if pyHasKey thought "tool_name" then pyGetD thought "tool_name" (.pstr "")
  else pyGetD thought "tool" (.pstr "")

/-- Parameter-bag extraction of `Reactor._execute_tool` (alias tolerance
for `tool_params` / `parameters`). -/
def toolParamsOf (thought : List (String × PyVal)) : PyVal :=
  if pyHasKey thought "tool_params" then pyGetD thought "tool_params" (.pdict [])
  else pyGetD thought "parameters" (.pdict [])

/-- The `try` block of `Reactor._execute_tool`: call the tool callable
with the parameter bag; any exception raised there (including the
`TypeError` of unpacking a non-dict parameter bag with `**params`) is
caught and wrapped as the `{error, success: False}` observation; a normal
return becomes the `{result, success: True}` observation. -/
def callTool (nm : String) (f : PyTool) (params : PyVal) : PyVal :=
  match params with
  | .pdict pkvs =>
      match f pkvs with
      | .ok v => .pdict [("result", v), ("success", .pbool true)]
      | .error e =>
          .pdict [("error", .pstr ("Error executing tool " ++ nm ++ ": " ++ e)),
                  ("success", .pbool false)]
  | _ =>
      .pdict [("error", .pstr ("Error executing tool " ++ nm ++ ": TypeError")),
              ("success", .pbool false)]

/-- The `{error, available_tools}` observation returned by
`Reactor._execute_tool` for a tool name absent from the registry. -/
def toolNotFound (tools : List (String × PyTool)) (msg : String) : PyVal :=
  .pdict [("error", .pstr msg),
          ("available_tools", .plist (tools.map (fun p => .pstr p.1)))]

/-- `Reactor._execute_tool`, lines 232-289 of src/core/reactor.py.
The membership test `tool_name not in self.tools` raises `TypeError` when
the extracted name is unhashable (a list or dict); that test sits outside
the `try` block, so the exception propagates (`Except.error`).  A
hashable non-string name is never a key of the string-keyed tools dict
and is reported as not found. -/
def executeTool (tools : List (String × PyTool)) (thought : List (String × PyVal)) :
    Except String PyVal :=
  if hashable (toolNameOf thought) = false then
    .error "TypeError: unhashable type"
  else
    match toolNameOf thought with
    | .pstr nm =>
        match tools.find? (fun p => p.1 = nm) with
        | some t => .ok (callTool nm t.2 (toolParamsOf thought))
        | none => .ok (toolNotFound tools ("Tool " ++ nm ++ " not found"))
    | _ => .ok (toolNotFound tools "Tool not found")

/-- The loop context of `Reactor.process` plus instrumentation:
`reasonCalls` counts invocations of the model inside `_reason`, and `err`
records a propagating Python exception (which in the source would abort
`process`). -/
structure LoopState where
  userInput : String
  iterations : Nat
  observations : List (PyVal × PyVal)
  complete : Bool
  finalResponse : PyVal
  reasonCalls : Nat
  err : Option String

/-- One pass of the `while` body of `Reactor.process`, lines 64-92 of
src/core/reactor.py.  `llm` abstracts the model: the content string the
provider returns for the prompt built from the current context. -/
def reactStep (tools : List (String × PyTool)) (jsonLoads : String → Option PyVal)
    (llm : LoopState → String) (st : LoopState) : LoopState :=
  let thought := reason jsonLoads (llm st)
  let st1 : LoopState := { st with reasonCalls := st.reasonCalls + 1 }
  match thought with
  | .pdict kvs =>
      let actionType := pyGetD kvs "action_type" .pnone
      if isStrVal actionType "tool_use" then
        match executeTool tools kvs with
        | .ok obs =>
            { st1 with observations := st1.observations ++ [(thought, obs)],
                       iterations := st1.iterations + 1 }
        | .error e => { st1 with err := some e }
      else if isStrVal actionType "final_response" then
        { st1 with complete := true,
                   finalResponse := pyGetD kvs "response" (.pstr ""),
                   iterations := st1.iterations + 1 }
      else
        { st1 with iterations := st1.iterations + 1 }
  | _ => { st1 with err := some "AttributeError" }

/-- The `while not context["complete"] and context["iterations"] <
self.max_iterations` loop of `Reactor.process`; a set `err` models an
exception having escaped the body, which stops the loop. -/
def runLoop (tools : List (String × PyTool)) (jsonLoads : String → Option PyVal)
    (llm : LoopState → String) (maxIterations : Nat) :
    Nat → LoopState → LoopState
  | 0, st => st
  | Nat.succ fuel, st =>
      if st.complete then st
      else if st.err.isSome then st
      else if st.iterations < maxIterations then
        runLoop tools jsonLoads llm maxIterations fuel (reactStep tools jsonLoads llm st)
      else st

/-- The fresh context built at the top of `Reactor.process`. -/
def initState (userInput : String) : LoopState :=
  { userInput := userInput, iterations := 0, observations := [],
    complete := false, finalResponse := .pstr "", reasonCalls := 0, err := none }

/-- Return value of `Reactor.process`, plus instrumentation: the number of
model calls made by the loop body (`reasonCalls`) and by
`_generate_timeout_response` (`timeoutCalls`), and a propagating
exception, if any. -/
structure ProcessResult where
  response : PyVal
  iterations : Nat
  reasonCalls : Nat
  timeoutCalls : Nat
  err : Option String

/-- The loop state at which `Reactor.process` leaves its while loop. -/
def finalLoopState (tools : List (String × PyTool)) (jsonLoads : String → Option PyVal)
    (llm : LoopState → String) (maxIterations : Nat) (userInput : String) : LoopState :=
  runLoop tools jsonLoads llm maxIterations maxIterations (initState userInput)

/-- The return/timeout tail of `Reactor.process` (lines 94-103 of
src/core/reactor.py), applied to the state the while loop left behind: a
propagated exception aborts the call; a completed run returns the stored
final response; an exhausted run makes the single
`_generate_timeout_response` model call and returns its content. -/
def processOf (timeoutLlm : LoopState → String) (st : LoopState) : ProcessResult :=
  if st.err.isSome then
    { response := .pnone, iterations := st.iterations,
      reasonCalls := st.reasonCalls, timeoutCalls := 0, err := st.err }
  else if st.complete then
    { response := st.finalResponse, iterations := st.iterations,
      reasonCalls := st.reasonCalls, timeoutCalls := 0, err := none }
  else
    { response := .pstr (timeoutLlm st), iterations := st.iterations,
      reasonCalls := st.reasonCalls, timeoutCalls := 1, err := none }

/-- `Reactor.process`, lines 43-103 of src/core/reactor.py.  `timeoutLlm`
abstracts the single model call of `_generate_timeout_response` (lines
371-421): the content string the model produces for the timeout prompt
built from the exhausted context. -/
def process (tools : List (String × PyTool)) (jsonLoads : String → Option PyVal)
    (llm timeoutLlm : LoopState → String) (maxIterations : Nat)
    (userInput : String) : ProcessResult :=
  processOf timeoutLlm (finalLoopState tools jsonLoads llm maxIterations userInput)

/-! ## Context (src/core/context.py) -/

/-- A conversation message as stored by `Context` (src/core/context.py). -/
structure Message where
  role : String
  content : String
  deriving DecidableEq

/-- `Context.add_message`, lines 25-36 of src/core/context.py: append,
then trim with `history[-max_history:]` when the length exceeds
`max_history`.  Python's `history[-0:]` is the whole list, so a
`max_history` of zero never trims. -/
def add_message (maxHistory : Nat) (history : List Message)
    (role content : String) : List Message :=
  let h := history ++ [{ role := role, content := content }]
  if maxHistory < h.length then
    if maxHistory = 0 then h else h.drop (h.length - maxHistory)
  else h

/-- Sequential `add_message` calls for a list of messages. -/
def addMessages (maxHistory : Nat) (history : List Message)
    (msgs : List Message) : List Message :=
  msgs.foldl (fun acc m => add_message maxHistory acc m.role m.content) history

/-! ## MCPMemoryManager (src/core/mcp_memory.py) -/

/-- The metadata fields of a memory that the manager reads:
`metadata.get("importance", 0)` and `metadata.get("timestamp", 0)`.
Both are optional because a caller-supplied metadata dict may lack
them. -/
structure MemMeta where
  importance : Option ℚ
  timestamp : Option ℚ
  deriving DecidableEq

/-- A working-memory entry `{"id": ..., "content": ..., "metadata": ...}`. -/
structure WMItem where
  id : String
  content : String
  metadata : MemMeta
  deriving DecidableEq

/-- A row of the durable (long-term) tier, as inserted by
`SqliteMemory.add` (content plus the metadata dict; the derived columns
`created_at`, `updated_at` and `tags` are not read by any claim). -/
structure LTRecord where
  content : String
  metadata : MemMeta
  deriving DecidableEq

/-- The state of an `MCPMemoryManager`: the working-memory list, the
durable sqlite store (as its ordered list of inserted rows) and the
working-memory capacity (`self.working_memory_capacity = 10`). -/
structure MemState where
  workingMemory : List WMItem
  longTerm : List LTRecord
  workingMemoryCapacity : Nat
  deriving DecidableEq

/-- A freshly constructed `MCPMemoryManager`. -/
def initMemState : MemState :=
  { workingMemory := [], longTerm := [], workingMemoryCapacity := 10 }

/-- `memory["metadata"].get("importance", 0)`. -/
def impOf (m : WMItem) : ℚ := m.metadata.importance.getD 0

/-- `memory["metadata"].get("timestamp", 0)`. -/
def tsOf (m : WMItem) : ℚ := m.metadata.timestamp.getD 0

/-- The composite eviction key `importance * 10 + timestamp` of
`MCPMemoryManager.remember` (lines 560-567 of src/core/mcp_memory.py). -/
def score (m : WMItem) : ℚ := impOf m * 10 + tsOf m

/-- Comparison by composite score, the sort key of the eviction sort. -/
def scoreLE (a b : WMItem) : Prop := score a ≤ score b

instance : DecidableRel scoreLE := fun a b => inferInstanceAs (Decidable (score a ≤ score b))

instance : IsTotal WMItem scoreLE := ⟨fun a b => le_total (score a) (score b)⟩

instance : IsTrans WMItem scoreLE := ⟨fun _ _ _ h h2 => le_trans h h2⟩

/-- The overflow handling of `MCPMemoryManager.remember`: when the
working memory exceeds its capacity, sort it ascending by the composite
score (Python's stable `list.sort(key=...)`) and `pop(0)` the head. -/
def evictIfOver (cap : Nat) (wm : List WMItem) : List WMItem :=
  if cap < wm.length then (List.insertionSort scoreLE wm).drop 1 else wm

/-- The importance actually used by `remember`: the explicit argument if
given, otherwise the LLM evaluation `_evaluate_importance(content)` when
an LLM service is configured, otherwise none. -/
def effImportance (importance0 : Option ℚ) (llmEval : Option (String → ℚ))
    (content : String) : Option ℚ :=
  match importance0, llmEval with
  | none, some f => some (f content)
  | i, _ => i

/-- The metadata mutations of `remember`: always set
`metadata["timestamp"]`, and set `metadata["importance"]` only when an
importance value is available. -/
def stampMeta (meta0 : MemMeta) (imp : Option ℚ) (now : ℚ) : MemMeta :=
  match imp with
  | some i => { meta0 with timestamp := some now, importance := some i }
  | none => { meta0 with timestamp := some now }

/-- The tier decision of `remember`:
`if long_term or (importance is not None and importance > 0.7)`. -/
def goesLongTerm (longTerm : Bool) (imp : Option ℚ) : Bool :=
  longTerm || (match imp with | some i => decide (mkRat 7 10 < i) | none => false)

/-- `MCPMemoryManager.remember`, lines 519-569 of src/core/mcp_memory.py.
`llmEval` abstracts `_evaluate_importance`; `now` abstracts
`time.time()`; `newId` abstracts the generated working-memory id
`f"wm_{int(time.time())}_{hash(str(content))}"`. -/
def remember (s : MemState) (content : String) (meta0 : MemMeta)
    (longTerm : Bool) (importance0 : Option ℚ) (llmEval : Option (String → ℚ))
    (now : ℚ) (newId : String) : MemState :=
  let imp := effImportance importance0 llmEval content
  let md := stampMeta meta0 imp now
  if goesLongTerm longTerm imp then
    { s with longTerm := s.longTerm ++ [{ content := content, metadata := md }] }
  else
    let item : WMItem := { id := newId, content := content, metadata := md }
    { s with workingMemory :=
        evictIfOver s.workingMemoryCapacity (s.workingMemory ++ [item]) }

/-- The durable-tier row written for a consolidated working-memory item:
`self.long_term_memory.add(memory["content"], memory["metadata"])`. -/
def toLT (m : WMItem) : LTRecord := { content := m.content, metadata := m.metadata }

/-- One pass of the `consolidate` loop body: an item with importance above
0.5 is added to the durable store and removed — `list.remove`, i.e. first
equal occurrence — from the live working memory. -/
def consolidateStep (acc : MemState) (m : WMItem) : MemState :=
  if mkRat 1 2 < impOf m then
    { acc with
        longTerm := acc.longTerm ++ [toLT m],
        workingMemory := acc.workingMemory.erase m }
  else acc

/-- `MCPMemoryManager.consolidate`, lines 655-668 of src/core/mcp_memory.py:
iterate the loop body over a snapshot `self.working_memory[:]` of the
working memory. -/
def consolidate (s : MemState) : MemState :=
  s.workingMemory.foldl consolidateStep s

/-! ## Tool schema export (src/core/mcp.py) -/

/-- The per-parameter info dict built by `MCPTool._infer_parameters`:
a JSON type name and, when present, the internal `required` key. -/
structure ParamInfo where
  type : String
  required : Option Bool
  deriving DecidableEq

/-- The mutable state of an `MCPTool` that `get_schema` reads and writes:
its name, description and parameters dict. -/
structure MCPToolSt where
  name : String
  description : String
  parameters : List (String × ParamInfo)
  deriving DecidableEq

/-- The schema dict returned by `MCPTool.get_schema`
(`properties` and the top-level `required` list). -/
structure ToolSchema where
  name : String
  description : String
  properties : List (String × ParamInfo)
  required : List String
  deriving DecidableEq

/-- `MCPTool._infer_parameters` for a signature given as a list of
(parameter name, has-default) pairs: a parameter without a default value
gets the `required: True` marker; the JSON type plays no role in the
claims and is kept at the inference default. -/
def mcpToolOfSig (name description : String) (sig : List (String × Bool)) : MCPToolSt :=
  { name := name, description := description,
    parameters := sig.map (fun p =>
      (p.1, { type := "string",
              required := if p.2 then none else some true })) }

/-- The names collected into the top-level `required` list by the scan in
`MCPTool.get_schema` (truthy `info.get("required", False)`). -/
def requiredNames (ps : List (String × ParamInfo)) : List String :=
  (ps.filter (fun p => p.2.required.getD false)).map (fun p => p.1)

/-- The in-place `del info["required"]` performed by that scan: the key is
deleted from exactly the parameters whose marker was truthy. -/
def stripRequired (ps : List (String × ParamInfo)) : List (String × ParamInfo) :=
  ps.map (fun p =>
    if p.2.required.getD false then (p.1, { p.2 with required := none }) else p)

/-- `MCPTool.get_schema`, lines 99-119 of src/core/mcp.py.  The scan
mutates `self.parameters` (it deletes the `required` markers), so the
call returns both the schema and the tool state it leaves behind. -/
def get_schema (t : MCPToolSt) : ToolSchema × MCPToolSt :=
  ({ name := t.name, description := t.description,
     properties := stripRequired t.parameters,
     required := requiredNames t.parameters },
   { t with parameters := stripRequired t.parameters })

/-- `MCPToolKit.get_all_schemas`, lines 170-172 of src/core/mcp.py:
`get_schema` applied to every registered tool (each call mutating that
tool's parameters dict). -/
def get_all_schemas (ts : List MCPToolSt) : List ToolSchema × List MCPToolSt :=
  (ts.map (fun t => (get_schema t).1), ts.map (fun t => (get_schema t).2))

/-! ## TaskPlanner (src/core/planner.py) -/

/-- The fallback plan literal of `TaskPlanner.create_plan`, lines 120-133
of src/core/planner.py. -/
def fallbackPlan (taskDescription : String) : PyVal :=
  .pdict [("task", .pstr taskDescription),
          ("analysis", .pstr "Failed to generate structured plan"),
          ("steps", .plist [.pdict
              [("id", .pint 1),
               ("agent", .pstr "default"),
               ("task", .pstr taskDescription),
               ("expected_output", .pstr "Task result"),
               ("dependencies", .plist [])]]),
          ("success_criteria", .pstr "Task is completed successfully")]

/-- The JSON-recovery tail of `TaskPlanner.create_plan`, lines 104-133 of
src/core/planner.py: try a fenced json code block first
(`re.search` abstracted by `extractJsonBlock`), else parse the whole
response; on either parse failure return the fallback plan.
`planText` is the model response text. -/
def create_plan (extractJsonBlock : String → Option String)
    (jsonLoads : String → Option PyVal)
    (planText : String) (taskDescription : String) : PyVal :=
  match extractJsonBlock planText with
  | some block =>
      match jsonLoads block with
      | some plan => plan
      | none => fallbackPlan taskDescription
  | none =>
      match jsonLoads planText with
      | some plan => plan
      | none => fallbackPlan taskDescription

/-- Dict lookup lifted to a `PyVal`. -/
def pyValLookup (v : PyVal) (k : String) : Option PyVal :=
  match v with
  | .pdict kvs => pyLookup kvs k
  | _ => none

/-! ## Lemmas about the Reactor loop -/

theorem reactStep_reasonCalls (tools : List (String × PyTool))
    (jsonLoads : String → Option PyVal) (llm : LoopState → String) (st : LoopState) :
    (reactStep tools jsonLoads llm st).reasonCalls = st.reasonCalls + 1 := by
  unfold reactStep
  cases reason jsonLoads (llm st) with
  | pdict kvs =>
      simp only []
      split
      · cases executeTool tools kvs <;> rfl
      · split <;> rfl
  | pnone => rfl
  | pbool b => rfl
  | pint n => rfl
  | pstr s => rfl
  | plist xs => rfl

theorem runLoop_of_complete (tools : List (String × PyTool))
    (jsonLoads : String → Option PyVal) (llm : LoopState → String)
    (K fuel : Nat) (st : LoopState) (h : st.complete = true) :
    runLoop tools jsonLoads llm K fuel st = st := by
  cases fuel with
  | zero => rfl
  | succ fuel => simp only [runLoop, h, if_true]

theorem runLoop_of_err (tools : List (String × PyTool))
    (jsonLoads : String → Option PyVal) (llm : LoopState → String)
    (K fuel : Nat) (st : LoopState) (h : st.err.isSome = true) :
    runLoop tools jsonLoads llm K fuel st = st := by
  cases fuel with
  | zero => rfl
  | succ fuel =>
      simp only [runLoop, h]
      split <;> simp

theorem runLoop_reasonCalls (tools : List (String × PyTool))
    (jsonLoads : String → Option PyVal) (llm : LoopState → String) (K : Nat) :
    ∀ (fuel : Nat) (st : LoopState),
      (runLoop tools jsonLoads llm K fuel st).reasonCalls ≤ st.reasonCalls + fuel := by
  intro fuel
  induction fuel with
  | zero => intro st; simp [runLoop]
  | succ fuel ih =>
      intro st
      simp only [runLoop]
      split
      · exact Nat.le_add_right _ _
      · split
        · exact Nat.le_add_right _ _
        · split
          · calc (runLoop tools jsonLoads llm K fuel (reactStep tools jsonLoads llm st)).reasonCalls
                ≤ (reactStep tools jsonLoads llm st).reasonCalls + fuel := ih _
              _ = st.reasonCalls + 1 + fuel := by
                  rw [reactStep_reasonCalls]
              _ = st.reasonCalls + (fuel + 1) := by omega
          · exact Nat.le_add_right _ _

theorem processOf_reasonCalls (timeoutLlm : LoopState → String) (st : LoopState) :
    (processOf timeoutLlm st).reasonCalls = st.reasonCalls := by
  unfold processOf
  split
  · rfl
  · split <;> rfl

theorem initState_complete (input : String) : (initState input).complete = false := rfl

theorem initState_errIsSome (input : String) :
    (initState input).err.isSome = false := rfl

theorem initState_iterations (input : String) : (initState input).iterations = 0 := rfl

theorem reactStep_parse_fail (tools : List (String × PyTool))
    (jsonLoads : String → Option PyVal) (llm : LoopState → String) (st : LoopState)
    (h : jsonLoads (llm st) = none) :
    reactStep tools jsonLoads llm st =
      { st with complete := true, finalResponse := .pstr (llm st),
                iterations := st.iterations + 1,
                reasonCalls := st.reasonCalls + 1 } := by
  unfold reactStep reason
  rw [h]
  rfl

theorem reactStep_parse_non_dict (tools : List (String × PyTool))
    (jsonLoads : String → Option PyVal) (llm : LoopState → String) (st : LoopState)
    (v : PyVal) (h : jsonLoads (llm st) = some v) (hnd : isDict v = false) :
    reactStep tools jsonLoads llm st =
      { st with reasonCalls := st.reasonCalls + 1, err := some "AttributeError" } := by
  unfold reactStep reason
  rw [h]
  cases v with
  | pdict kvs => simp [isDict] at hnd
  | pnone => rfl
  | pbool b => rfl
  | pint n => rfl
  | pstr s => rfl
  | plist xs => rfl

/-! ## Claim theorems: Reactor -/

/-- C1: for every configured `max_iterations = K` and every model
behaviour (every `llm`, `jsonLoads` and tool set, in particular a model
that always answers with a `tool_use` decision), `Reactor.process`
performs at most K reasoning iterations (model calls made by the loop
body); when the loop leaves without having completed (and without a
propagating exception), `process` makes exactly one additional,
non-recursive model call and returns its content as the response, and
when the loop completed no timeout call is made. -/
theorem reactor_iteration_budget (tools : List (String × PyTool))
    (jsonLoads : String → Option PyVal) (llm timeoutLlm : LoopState → String)
    (K : Nat) (input : String) :
    (process tools jsonLoads llm timeoutLlm K input).reasonCalls ≤ K ∧
    ((finalLoopState tools jsonLoads llm K input).err = none →
      (finalLoopState tools jsonLoads llm K input).complete = false →
      (process tools jsonLoads llm timeoutLlm K input).timeoutCalls = 1 ∧
      (process tools jsonLoads llm timeoutLlm K input).response =
        .pstr (timeoutLlm (finalLoopState tools jsonLoads llm K input))) ∧
    ((finalLoopState tools jsonLoads llm K input).complete = true →
      (process tools jsonLoads llm timeoutLlm K input).timeoutCalls = 0) := by
  refine ⟨?_, ?_, ?_⟩
  · unfold process
    rw [processOf_reasonCalls]
    have h := runLoop_reasonCalls tools jsonLoads llm K K (initState input)
    simpa [finalLoopState, initState] using h
  · intro herr hcomp
    unfold process processOf
    simp [herr, hcomp]
  · intro hcomp
    unfold process processOf
    split <;> rfl

/-- C1 witness: a mock model that always returns a `tool_use` decision,
with `max_iterations = 3`: the loop makes at most 3 reasoning calls and
then exactly one timeout call. -/
def c1Tools : List (String × PyTool) := [("t", fun _ => .ok .pnone)]

def c1Json : String → Option PyVal := fun _ =>
  some (.pdict [("action_type", .pstr "tool_use"), ("tool_name", .pstr "t"),
                ("tool_params", .pdict [])])

theorem reactor_iteration_budget_witness :
    (process c1Tools c1Json (fun _ => "x") (fun _ => "TO") 3 "hi").reasonCalls ≤ 3 ∧
    (process c1Tools c1Json (fun _ => "x") (fun _ => "TO") 3 "hi").timeoutCalls = 1 := by
  refine ⟨(reactor_iteration_budget c1Tools c1Json (fun _ => "x") (fun _ => "TO") 3 "hi").1, ?_⟩
  exact ((reactor_iteration_budget c1Tools c1Json (fun _ => "x") (fun _ => "TO") 3 "hi").2.1
    (by decide) (by decide)).1

/-- C3: whenever the model content fails to parse as JSON, the loop turns
the raw text into the final response: at any non-terminal loop state a
parse failure completes the run with the raw content as response, and a
`process` run whose first model content is unparseable returns exactly
that text, with no exception. -/
theorem fail_open_parsing (tools : List (String × PyTool))
    (jsonLoads : String → Option PyVal) (llm timeoutLlm : LoopState → String)
    (K : Nat) (input : String) (st : LoopState) (fuel : Nat) :
    (st.complete = false → st.err = none → st.iterations < K →
      jsonLoads (llm st) = none →
      runLoop tools jsonLoads llm K (fuel + 1) st =
        { st with complete := true, finalResponse := .pstr (llm st),
                  iterations := st.iterations + 1,
                  reasonCalls := st.reasonCalls + 1 }) ∧
    (jsonLoads (llm (initState input)) = none → 1 ≤ K →
      process tools jsonLoads llm timeoutLlm K input =
        { response := .pstr (llm (initState input)), iterations := 1,
          reasonCalls := 1, timeoutCalls := 0, err := none }) := by
  constructor
  · intro hc he hi hp
    simp only [runLoop, hc, he, Option.isSome_none, Bool.false_eq_true, if_false,
      hi, if_true]
    rw [reactStep_parse_fail tools jsonLoads llm st hp, he]
    refine runLoop_of_complete _ _ _ _ _ _ ?_
    rfl
  · intro hp hK
    obtain ⟨k, rfl⟩ : ∃ k, K = k + 1 := ⟨K - 1, by omega⟩
    have hrun : finalLoopState tools jsonLoads llm (k + 1) input =
        { initState input with
            complete := true
            finalResponse := .pstr (llm (initState input))
            iterations := (initState input).iterations + 1
            reasonCalls := (initState input).reasonCalls + 1 } := by
      unfold finalLoopState
      simp only [runLoop, initState_complete, initState_errIsSome,
        initState_iterations, Bool.false_eq_true, if_false, Nat.zero_lt_succ, if_true]
      rw [reactStep_parse_fail tools jsonLoads llm (initState input) hp]
      refine runLoop_of_complete _ _ _ _ _ _ ?_
      rfl
    unfold process
    rw [hrun]
    rfl

/-- C3 witness: a model returning the plain text "hello" (not JSON) with
`max_iterations = 3` yields "hello" as the final response after one
iteration. -/
theorem fail_open_parsing_witness :
    process [] (fun _ => none) (fun _ => "hello") (fun _ => "TO") 3 "hi" =
      { response := .pstr "hello", iterations := 1, reasonCalls := 1,
        timeoutCalls := 0, err := none } :=
  (fail_open_parsing [] (fun _ => none) (fun _ => "hello") (fun _ => "TO") 3 "hi"
    (initState "hi") 0).2 rfl (by omega)

/-- C10: when the model content parses as JSON that is not an object (a
bare number, boolean, string, null or array), `Reactor.process` raises
`AttributeError` (the parsed value is returned unchecked by `_reason` and
`process` then calls `.get` on it) instead of returning a final
response; the fail-open policy covers only JSON decode failures. -/
theorem parsed_non_object_raises (tools : List (String × PyTool))
    (jsonLoads : String → Option PyVal) (llm timeoutLlm : LoopState → String)
    (K : Nat) (input : String) (v : PyVal)
    (hv : jsonLoads (llm (initState input)) = some v)
    (hnd : isDict v = false) (hK : 1 ≤ K) :
    (process tools jsonLoads llm timeoutLlm K input).err = some "AttributeError" ∧
    (process tools jsonLoads llm timeoutLlm K input).iterations = 0 := by
  obtain ⟨k, rfl⟩ : ∃ k, K = k + 1 := ⟨K - 1, by omega⟩
  have hrun : finalLoopState tools jsonLoads llm (k + 1) input =
      { initState input with
          reasonCalls := 1
          err := some "AttributeError" } := by
    unfold finalLoopState
    simp only [runLoop, initState_complete, initState_errIsSome,
      initState_iterations, Bool.false_eq_true, if_false, Nat.zero_lt_succ, if_true]
    rw [reactStep_parse_non_dict tools jsonLoads llm (initState input) v hv hnd]
    refine runLoop_of_err _ _ _ _ _ _ ?_
    rfl
  unfold process
  rw [hrun]
  exact ⟨rfl, rfl⟩

/-- C10 witness: a model whose content is the bare JSON literal `4` makes
`process` raise `AttributeError`. -/
theorem parsed_non_object_raises_witness :
    (process [] (fun s => if s = "4" then some (.pint 4) else none)
        (fun _ => "4") (fun _ => "TO") 5 "hi").err = some "AttributeError" :=
  (parsed_non_object_raises [] (fun s => if s = "4" then some (.pint 4) else none)
    (fun _ => "4") (fun _ => "TO") 5 "hi" (.pint 4) rfl rfl (by omega)).1

/-! ## Claim theorems: Context history (C4) -/

/-- C4 counterexample: with `max_history = 2`, adding a system message
followed by two user messages leaves exactly the two user messages —
the system message is the evicted one, refuting the claim that system
messages are not the ones evicted by `Context.add_message`. -/
theorem bounded_history_counterexample :
    addMessages 2 [] [⟨"system", "S"⟩, ⟨"user", "A"⟩, ⟨"user", "B"⟩] =
      [⟨"user", "A"⟩, ⟨"user", "B"⟩] ∧
    (⟨"system", "S"⟩ : Message) ∉
      addMessages 2 [] [⟨"system", "S"⟩, ⟨"user", "A"⟩, ⟨"user", "B"⟩] := by
  decide

theorem add_message_eq (N : Nat) (h : List Message) (m : Message) :
    add_message N h m.role m.content =
      if N < (h ++ [m]).length then
        (if N = 0 then h ++ [m] else (h ++ [m]).drop ((h ++ [m]).length - N))
      else h ++ [m] := rfl

theorem add_message_length_le (N : Nat) (hN : 1 ≤ N) (h : List Message)
    (m : Message) (hh : h.length ≤ N) :
    (add_message N h m.role m.content).length ≤ N := by
  rw [add_message_eq]
  by_cases h1 : N < (h ++ [m]).length
  · rw [if_pos h1, if_neg (by omega : ¬ N = 0)]
    simp only [List.length_drop, List.length_append, List.length_cons,
      List.length_nil] at h1 ⊢
    omega
  · rw [if_neg h1]
    simp only [List.length_append, List.length_cons, List.length_nil] at h1 ⊢
    omega

theorem addMessages_drop (N : Nat) (hN : 1 ≤ N) :
    ∀ (msgs h : List Message), h.length ≤ N →
      addMessages N h msgs = (h ++ msgs).drop ((h ++ msgs).length - N) := by
  intro msgs
  induction msgs with
  | nil =>
      intro h hh
      simp only [addMessages, List.foldl_nil, List.append_nil]
      have h0 : h.length - N = 0 := by omega
      rw [h0, List.drop_zero]
  | cons m ms ih =>
      intro h hh
      have hstep : addMessages N h (m :: ms) =
          addMessages N (add_message N h m.role m.content) ms := rfl
      rw [hstep, ih _ (add_message_length_le N hN h m hh), add_message_eq]
      by_cases hlen : N < (h ++ [m]).length
      · rw [if_pos hlen, if_neg (by omega : ¬ N = 0)]
        have hle : (h ++ [m]).length - N ≤ (h ++ [m]).length := by omega
        have happ :=
          (@List.drop_append_of_le_length _ (h ++ [m]) ms
            ((h ++ [m]).length - N) hle).symm
        rw [happ, List.drop_drop]
        have hassoc : (h ++ [m]) ++ ms = h ++ m :: ms := by
          rw [List.append_assoc]
          rfl
        rw [hassoc]
        congr 1
        simp only [List.length_append, List.length_cons, List.length_nil,
          List.length_drop] at hlen hh ⊢
        omega
      · rw [if_neg hlen]
        have hassoc : (h ++ [m]) ++ ms = h ++ m :: ms := by
          rw [List.append_assoc]
          rfl
        rw [hassoc]

/-- C4 amended: for every `max_history = N ≥ 1`, after adding M > N
messages the history holds exactly N messages, namely the most recent N
in their original relative order; eviction removes the oldest messages
first regardless of role (system messages included — and for N = 0 the
trim `history[-0:]` is a no-op, so nothing is ever evicted). -/
theorem bounded_history (N : Nat) (hN : 1 ≤ N) (msgs : List Message)
    (hM : N < msgs.length) :
    addMessages N [] msgs = msgs.drop (msgs.length - N) ∧
    (addMessages N [] msgs).length = N := by
  have h := addMessages_drop N hN msgs [] (by simp)
  simp only [List.nil_append] at h
  refine ⟨h, ?_⟩
  rw [h, List.length_drop]
  omega

/-- C4 witness: `max_history = 2` with three messages keeps the last
two. -/
theorem bounded_history_witness :
    addMessages 2 [] [⟨"u", "A"⟩, ⟨"u", "B"⟩, ⟨"u", "C"⟩] =
      [⟨"u", "B"⟩, ⟨"u", "C"⟩] ∧
    (addMessages 2 [] [⟨"u", "A"⟩, ⟨"u", "B"⟩, ⟨"u", "C"⟩]).length = 2 := by
  have h := bounded_history 2 (by omega) [⟨"u", "A"⟩, ⟨"u", "B"⟩, ⟨"u", "C"⟩]
    (by decide)
  exact ⟨h.1.trans (by decide), h.2⟩

/-! ## Claim theorems: tool error containment (C2) -/

def c2Json : String → Option PyVal := fun _ =>
  some (.pdict [("action_type", .pstr "tool_use"), ("tool_name", .plist [])])

/-- C2 counterexample: a `tool_use` decision whose tool name is a JSON
array (absent from the tools mapping, but unhashable) makes
`Reactor.process` raise `TypeError` — the exception propagates out of
`process` and no observation is recorded, refuting the claim for this
decision. -/
theorem tool_error_containment_counterexample :
    (process [] c2Json (fun _ => "x") (fun _ => "TO") 3 "hi").err =
      some "TypeError: unhashable type" ∧
    (finalLoopState [] c2Json (fun _ => "x") 3 "hi").observations.length = 0 :=
  ⟨rfl, rfl⟩

theorem reactStep_tool_use (tools : List (String × PyTool))
    (jsonLoads : String → Option PyVal) (llm : LoopState → String)
    (st : LoopState) (kvs : List (String × PyVal)) (obs : PyVal)
    (hreason : reason jsonLoads (llm st) = .pdict kvs)
    (haction : pyGetD kvs "action_type" .pnone = .pstr "tool_use")
    (hexec : executeTool tools kvs = .ok obs) :
    reactStep tools jsonLoads llm st =
      { st with reasonCalls := st.reasonCalls + 1
                observations := st.observations ++ [(.pdict kvs, obs)]
                iterations := st.iterations + 1 } := by
  unfold reactStep
  rw [hreason]
  simp only [haction, hexec, isStrVal, decide_eq_true_eq]
  rw [if_pos trivial]

theorem callTool_result_or_error (nm : String) (f : PyTool) (params : PyVal) :
    pyValHasKey (callTool nm f params) "result" = true ∨
    pyValHasKey (callTool nm f params) "error" = true := by
  cases params with
  | pdict pkvs =>
      cases hf : f pkvs with
      | ok v =>
          left
          simp [callTool, hf, pyValHasKey, pyHasKey, pyLookup]
      | error e =>
          right
          simp [callTool, hf, pyValHasKey, pyHasKey, pyLookup]
  | pnone => exact Or.inr rfl
  | pbool b => exact Or.inr rfl
  | pint n => exact Or.inr rfl
  | pstr s => exact Or.inr rfl
  | plist xs => exact Or.inr rfl

/-- C2 amended: for every `tool_use` decision whose extracted tool name
is hashable (not a JSON array or object), `_execute_tool` returns — it
never raises — an observation dict carrying a `result` or an `error`
key; a tool name absent from the registry yields an observation with
`error` and `available_tools` keys; a registered tool whose callable
raises yields an observation with an `error` key; and the loop records
the observation and continues to the next reasoning iteration (no
exception escapes `process`). -/
theorem tool_error_containment (tools : List (String × PyTool))
    (jsonLoads : String → Option PyVal) (llm : LoopState → String)
    (st : LoopState) (kvs : List (String × PyVal))
    (hreason : reason jsonLoads (llm st) = .pdict kvs)
    (haction : pyGetD kvs "action_type" .pnone = .pstr "tool_use")
    (hhash : hashable (toolNameOf kvs) = true) :
    ∃ obs, executeTool tools kvs = .ok obs ∧
      (pyValHasKey obs "result" = true ∨ pyValHasKey obs "error" = true) ∧
      (∀ nm, toolNameOf kvs = .pstr nm →
        (tools.find? fun p => p.1 = nm) = none →
        pyValHasKey obs "error" = true ∧
        pyValHasKey obs "available_tools" = true) ∧
      (∀ nm t pkvs e, toolNameOf kvs = .pstr nm →
        (tools.find? fun p => p.1 = nm) = some t →
        toolParamsOf kvs = .pdict pkvs → t.2 pkvs = .error e →
        pyValHasKey obs "error" = true) ∧
      reactStep tools jsonLoads llm st =
        { st with reasonCalls := st.reasonCalls + 1
                  observations := st.observations ++
                    [(.pdict kvs, obs)]
                  iterations := st.iterations + 1 } := by
  have hstep := reactStep_tool_use tools jsonLoads llm st kvs
  cases htn : toolNameOf kvs with
  | plist xs => rw [htn] at hhash; exact absurd hhash (by simp [hashable])
  | pdict d => rw [htn] at hhash; exact absurd hhash (by simp [hashable])
  | pstr nm =>
      cases hfind : tools.find? (fun p => p.1 = nm) with
      | none =>
          have hexec0 : executeTool tools kvs =
              .ok (toolNotFound tools ("Tool " ++ nm ++ " not found")) := by
            simp [executeTool, htn, hashable, hfind]
          refine ⟨toolNotFound tools ("Tool " ++ nm ++ " not found"), hexec0,
            Or.inr rfl, ?_, ?_, hstep _ hreason haction hexec0⟩
          · intro nm2 _ _
            exact ⟨rfl, rfl⟩
          · intro nm2 t pkvs e htn2 hfind2 _ _
            cases htn2
            rw [hfind] at hfind2
            cases hfind2
      | some t =>
          have hexec0 : executeTool tools kvs =
              .ok (callTool nm t.2 (toolParamsOf kvs)) := by
            simp [executeTool, htn, hashable, hfind]
          refine ⟨callTool nm t.2 (toolParamsOf kvs), hexec0,
            callTool_result_or_error nm t.2 (toolParamsOf kvs), ?_, ?_,
            hstep _ hreason haction hexec0⟩
          · intro nm2 htn2 hfind2
            cases htn2
            rw [hfind] at hfind2
            cases hfind2
          · intro nm2 t2 pkvs e htn2 hfind2 hparams herr
            cases htn2
            rw [hfind] at hfind2
            cases hfind2
            rw [hparams]
            simp [callTool, herr, pyValHasKey, pyHasKey, pyLookup]
  | pnone =>
      have hexec0 : executeTool tools kvs =
          .ok (toolNotFound tools "Tool not found") := by
        simp [executeTool, htn, hashable]
      refine ⟨toolNotFound tools "Tool not found", hexec0, Or.inr rfl, ?_, ?_,
        hstep _ hreason haction hexec0⟩
      · intro nm2 htn2 _
        cases htn2
      · intro nm2 t pkvs e htn2 _ _ _
        cases htn2
  | pbool b =>
      have hexec0 : executeTool tools kvs =
          .ok (toolNotFound tools "Tool not found") := by
        simp [executeTool, htn, hashable]
      refine ⟨toolNotFound tools "Tool not found", hexec0, Or.inr rfl, ?_, ?_,
        hstep _ hreason haction hexec0⟩
      · intro nm2 htn2 _
        cases htn2
      · intro nm2 t pkvs e htn2 _ _ _
        cases htn2
  | pint n =>
      have hexec0 : executeTool tools kvs =
          .ok (toolNotFound tools "Tool not found") := by
        simp [executeTool, htn, hashable]
      refine ⟨toolNotFound tools "Tool not found", hexec0, Or.inr rfl, ?_, ?_,
        hstep _ hreason haction hexec0⟩
      · intro nm2 htn2 _
        cases htn2
      · intro nm2 t pkvs e htn2 _ _ _
        cases htn2

def c2wTools : List (String × PyTool) := [("boom", fun _ => .error "boom")]

def c2wKvs : List (String × PyVal) :=
  [("action_type", .pstr "tool_use"), ("tool_name", .pstr "boom"),
   ("tool_params", .pdict [])]

/-- C2 witness: a registered tool that raises, at a concrete `tool_use`
decision. -/
theorem tool_error_containment_witness :
    ∃ obs, executeTool c2wTools c2wKvs = .ok obs ∧
      (pyValHasKey obs "result" = true ∨ pyValHasKey obs "error" = true) := by
  obtain ⟨obs, h1, h2, -, -, -⟩ :=
    tool_error_containment c2wTools (fun _ => some (.pdict c2wKvs))
      (fun _ => "t") (initState "x") c2wKvs rfl rfl rfl
  exact ⟨obs, h1, h2⟩

/-! ## Claim theorems: memory tiering (C5) -/

theorem goesLongTerm_iff (lt : Bool) (imp : Option ℚ) :
    goesLongTerm lt imp = true ↔
      (lt = true ∨ ∃ i, imp = some i ∧ mkRat 7 10 < i) := by
  unfold goesLongTerm
  cases lt <;> cases imp <;> simp

theorem remember_longterm_path (s : MemState) (content : String) (meta0 : MemMeta)
    (lt : Bool) (importance0 : Option ℚ) (llmEval : Option (String → ℚ))
    (now : ℚ) (newId : String)
    (h : goesLongTerm lt (effImportance importance0 llmEval content) = true) :
    remember s content meta0 lt importance0 llmEval now newId =
      { s with longTerm := s.longTerm ++ [{ content := content, metadata := stampMeta meta0 (effImportance importance0 llmEval content) now }] } := by
  unfold remember
  dsimp only
  rw [if_pos h]

theorem remember_working_path (s : MemState) (content : String) (meta0 : MemMeta)
    (lt : Bool) (importance0 : Option ℚ) (llmEval : Option (String → ℚ))
    (now : ℚ) (newId : String)
    (h : goesLongTerm lt (effImportance importance0 llmEval content) = false) :
    remember s content meta0 lt importance0 llmEval now newId =
      { s with workingMemory := evictIfOver s.workingMemoryCapacity (s.workingMemory ++ [{ id := newId, content := content, metadata := stampMeta meta0 (effImportance importance0 llmEval content) now }]) } := by
  unfold remember
  dsimp only
  rw [h]
  rfl

/-- C5: `MCPMemoryManager.remember` writes a new memory directly to the
durable tier if and only if `long_term` is set or its (effective)
importance is strictly greater than 0.7; otherwise — importance exactly
0.7 included — the memory is appended to working memory (subject to the
capacity eviction) and nothing is written to durable storage. -/
theorem remember_tier (s : MemState) (content : String) (meta0 : MemMeta)
    (lt : Bool) (importance0 : Option ℚ) (llmEval : Option (String → ℚ))
    (now : ℚ) (newId : String) :
    ((lt = true ∨ ∃ i, effImportance importance0 llmEval content = some i ∧
        mkRat 7 10 < i) →
      remember s content meta0 lt importance0 llmEval now newId =
        { s with longTerm := s.longTerm ++ [{ content := content, metadata := stampMeta meta0 (effImportance importance0 llmEval content) now }] }) ∧
    (lt = false →
      (∀ i, effImportance importance0 llmEval content = some i →
        i ≤ mkRat 7 10) →
      remember s content meta0 lt importance0 llmEval now newId =
        { s with workingMemory := evictIfOver s.workingMemoryCapacity (s.workingMemory ++ [{ id := newId, content := content, metadata := stampMeta meta0 (effImportance importance0 llmEval content) now }]) }) := by
  constructor
  · intro hcond
    exact remember_longterm_path s content meta0 lt importance0 llmEval now newId
      ((goesLongTerm_iff lt (effImportance importance0 llmEval content)).mpr hcond)
  · intro hlt hbound
    refine remember_working_path s content meta0 lt importance0 llmEval now newId ?_
    rw [Bool.eq_false_iff]
    intro hg
    rcases (goesLongTerm_iff lt (effImportance importance0 llmEval content)).mp hg with
      h | ⟨i, hi, hgt⟩
    · rw [hlt] at h
      cases h
    · exact absurd hgt (not_lt.mpr (hbound i hi))

/-- C5 witness: importance 0.9 without `long_term` goes straight to the
durable tier; importance exactly 0.7 stays in working memory. -/
theorem remember_tier_witness :
    remember initMemState "fact" ⟨none, none⟩ false (some (mkRat 9 10)) none 5 "idA" =
      { initMemState with longTerm := initMemState.longTerm ++ [{ content := "fact", metadata := stampMeta ⟨none, none⟩ (effImportance (some (mkRat 9 10)) none "fact") 5 }] } ∧
    remember initMemState "fact" ⟨none, none⟩ false (some (mkRat 7 10)) none 5 "idB" =
      { initMemState with workingMemory := evictIfOver initMemState.workingMemoryCapacity (initMemState.workingMemory ++ [{ id := "idB", content := "fact", metadata := stampMeta ⟨none, none⟩ (effImportance (some (mkRat 7 10)) none "fact") 5 }]) } := by
  constructor
  · exact (remember_tier initMemState "fact" ⟨none, none⟩ false (some (mkRat 9 10))
      none 5 "idA").1 (Or.inr ⟨mkRat 9 10, rfl, by decide⟩)
  · refine (remember_tier initMemState "fact" ⟨none, none⟩ false (some (mkRat 7 10))
      none 5 "idB").2 rfl ?_
    intro i hi
    simp only [effImportance, Option.some.injEq] at hi
    rw [← hi]

/-! ## Claim theorems: consolidation (C6) -/

theorem consolidate_go (snap : List WMItem) :
    ∀ (pf : List WMItem) (lt : List LTRecord) (cap : Nat),
      (∀ x ∈ pf, ¬ (mkRat 1 2 < impOf x)) →
      List.foldl consolidateStep ⟨pf ++ snap, lt, cap⟩ snap =
        ⟨pf ++ snap.filter (fun m => decide (impOf m ≤ mkRat 1 2)),
         lt ++ (snap.filter (fun m => decide (mkRat 1 2 < impOf m))).map toLT,
         cap⟩ := by
  induction snap with
  | nil =>
      intro pf lt cap hpf
      simp
  | cons m ms ih =>
      intro pf lt cap hpf
      simp only [List.foldl_cons]
      by_cases hm : mkRat 1 2 < impOf m
      · have hnotin : m ∉ pf := fun hin => hpf m hin hm
        have herase : (pf ++ m :: ms).erase m = pf ++ ms := by
          rw [List.erase_append_right _ hnotin, List.erase_cons_head]
        have hstep : consolidateStep ⟨pf ++ m :: ms, lt, cap⟩ m =
            ⟨pf ++ ms, lt ++ [toLT m], cap⟩ := by
          unfold consolidateStep
          rw [if_pos hm]
          simp only [herase]
        rw [hstep, ih pf (lt ++ [toLT m]) cap hpf]
        have h1 : decide (impOf m ≤ mkRat 1 2) = false := decide_eq_false (not_le.mpr hm)
        have h2 : decide (mkRat 1 2 < impOf m) = true := decide_eq_true hm
        simp [List.filter_cons, h1, h2, List.append_assoc]
      · have hstep : consolidateStep ⟨pf ++ m :: ms, lt, cap⟩ m =
            ⟨pf ++ m :: ms, lt, cap⟩ := by
          unfold consolidateStep
          rw [if_neg hm]
        rw [hstep]
        have hre : pf ++ m :: ms = (pf ++ [m]) ++ ms := by
          rw [List.append_assoc]
          rfl
        have hside : ∀ x ∈ pf ++ [m], ¬ (mkRat 1 2 < impOf x) := by
          intro x hx
          rcases List.mem_append.mp hx with hx1 | hx1
          · exact hpf x hx1
          · rw [List.mem_singleton.mp hx1]
            exact hm
        rw [hre, ih (pf ++ [m]) lt cap hside]
        have h1 : decide (impOf m ≤ mkRat 1 2) = true := decide_eq_true (not_lt.mp hm)
        have h2 : decide (mkRat 1 2 < impOf m) = false := decide_eq_false hm
        simp [List.filter_cons, h1, h2, List.append_assoc]

theorem consolidate_eq_filter (s : MemState) :
    consolidate s =
      ⟨s.workingMemory.filter (fun m => decide (impOf m ≤ mkRat 1 2)),
       s.longTerm ++
         (s.workingMemory.filter (fun m => decide (mkRat 1 2 < impOf m))).map toLT,
       s.workingMemoryCapacity⟩ := by
  have h := consolidate_go s.workingMemory [] s.longTerm s.workingMemoryCapacity
    (by intro x hx; cases hx)
  simp only [List.nil_append] at h
  exact h

/-- C6: `MCPMemoryManager.consolidate` moves exactly the working-memory
items with importance strictly greater than 0.5 into durable storage (in
order, appended to the store) and removes them from working memory; every
item with importance at most 0.5 stays; and a second `consolidate` call
is a no-op — no already-consolidated item is inserted twice. -/
theorem consolidate_moves_important (s : MemState) :
    (consolidate s).workingMemory =
      s.workingMemory.filter (fun m => decide (impOf m ≤ mkRat 1 2)) ∧
    (consolidate s).longTerm =
      s.longTerm ++
        (s.workingMemory.filter (fun m => decide (mkRat 1 2 < impOf m))).map toLT ∧
    consolidate (consolidate s) = consolidate s := by
  refine ⟨by rw [consolidate_eq_filter], by rw [consolidate_eq_filter], ?_⟩
  rw [consolidate_eq_filter s, consolidate_eq_filter]
  have hkeep : (s.workingMemory.filter
      (fun m => decide (impOf m ≤ mkRat 1 2))).filter
        (fun m => decide (impOf m ≤ mkRat 1 2)) =
      s.workingMemory.filter (fun m => decide (impOf m ≤ mkRat 1 2)) := by
    rw [List.filter_eq_self]
    intro a ha
    exact (List.mem_filter.mp ha).2
  have hnone : (s.workingMemory.filter
      (fun m => decide (impOf m ≤ mkRat 1 2))).filter
        (fun m => decide (mkRat 1 2 < impOf m)) = [] := by
    rw [List.filter_eq_nil_iff]
    intro a ha
    have h2 := (List.mem_filter.mp ha).2
    simp only [decide_eq_true_eq] at h2 ⊢
    exact not_lt.mpr h2
  simp only [hkeep, hnone, List.map_nil, List.append_nil]

/-! ## Claim theorems: working-memory eviction (C7) -/

def c7Item (i : Nat) : WMItem :=
  { id := "y" ++ toString i, content := "c",
    metadata := { importance := some (mkRat 1 10), timestamp := some 100 } }

def c7X : WMItem :=
  { id := "x", content := "c",
    metadata := { importance := some (mkRat 9 10), timestamp := some 0 } }

def c7State : MemState :=
  { workingMemory := c7X :: (List.range 9).map c7Item,
    longTerm := [], workingMemoryCapacity := 10 }

def c7New : WMItem :=
  { id := "z", content := "new",
    metadata := stampMeta ⟨none, none⟩ (effImportance (some (mkRat 1 10)) none "new") 100 }

def c7Wm : List WMItem := c7State.workingMemory ++ [c7New]

theorem evictIfOver_spec (cap : Nat) (wm : List WMItem)
    (hover : cap < wm.length) :
    ∃ e rest, List.insertionSort scoreLE wm = e :: rest ∧
      evictIfOver cap wm = rest ∧
      (∀ m ∈ wm, score e ≤ score m) ∧
      (∀ a ∈ wm, ∀ b ∈ wm, score b < score a → a ∈ rest) := by
  have hperm := List.perm_insertionSort scoreLE wm
  have hsorted := List.sorted_insertionSort scoreLE wm
  have hlen : (List.insertionSort scoreLE wm).length = wm.length := hperm.length_eq
  cases hs : List.insertionSort scoreLE wm with
  | nil =>
      rw [hs] at hlen
      simp only [List.length_nil] at hlen
      omega
  | cons e rest =>
      rw [hs] at hperm hsorted
      have hmin : ∀ m ∈ wm, score e ≤ score m := by
        intro m hm
        have hmem : m ∈ e :: rest := hperm.mem_iff.mpr hm
        rcases List.mem_cons.mp hmem with h1 | h1
        · rw [h1]
        · exact (List.sorted_cons.mp hsorted).1 m h1
      refine ⟨e, rest, rfl, ?_, hmin, ?_⟩
      · unfold evictIfOver
        rw [if_pos hover, hs]
        rfl
      · intro a ha b hb hlt
        have hmem : a ∈ e :: rest := hperm.mem_iff.mpr ha
        rcases List.mem_cons.mp hmem with h1 | h1
        · exfalso
          have := hmin b hb
          rw [h1] at hlt
          exact absurd hlt (not_lt.mpr this)
        · exact h1

/-- C7 counterexample: a working memory at capacity 10 holding one item
of importance 0.9 with timestamp 0 and nine items of importance 0.1 with
timestamp 100; remembering a tenth low-importance item at time 100
overflows the buffer and evicts the importance-0.9 item (composite score
9 against 101), even though every other buffered item has strictly lower
importance — refuting the claim that the weighting makes importance
dominate recency regardless of timestamps. -/
theorem working_memory_eviction_counterexample :
    c7X ∉ (remember c7State "new" ⟨none, none⟩ false (some (mkRat 1 10))
      none 100 "z").workingMemory ∧
    c7Item 0 ∈ (remember c7State "new" ⟨none, none⟩ false (some (mkRat 1 10))
      none 100 "z").workingMemory ∧
    impOf (c7Item 0) < impOf c7X := by
  have hrem : remember c7State "new" ⟨none, none⟩ false (some (mkRat 1 10))
      none 100 "z" =
      { c7State with workingMemory :=
          evictIfOver c7State.workingMemoryCapacity c7Wm } :=
    remember_working_path c7State "new" ⟨none, none⟩ false (some (mkRat 1 10))
      none 100 "z" (by decide)
  obtain ⟨e, rest, hsort, hev, hmin, hsurv⟩ :=
    evictIfOver_spec c7State.workingMemoryCapacity c7Wm (by decide)
  have hXmem : c7X ∈ c7Wm := List.mem_append_left _ (List.mem_cons_self _ _)
  have hY0mem : c7Item 0 ∈ c7Wm := by
    refine List.mem_append_left _ (List.mem_cons_of_mem _ ?_)
    exact List.mem_map.mpr ⟨0, List.mem_range.mpr (by omega), rfl⟩
  have hXscore : score c7X = mkRat 9 10 * 10 + 0 := rfl
  have hscore : ∀ m ∈ c7Wm, m ≠ c7X → score c7X < score m := by
    intro m hm hne
    have hv : score m = mkRat 1 10 * 10 + 100 := by
      rcases List.mem_append.mp hm with h1 | h1
      · rcases List.mem_cons.mp h1 with h2 | h2
        · exact absurd h2 hne
        · obtain ⟨i, -, rfl⟩ := List.mem_map.mp h2
          rfl
      · rw [List.mem_singleton.mp h1]
        rfl
    rw [hv, hXscore]
    norm_num
  have heX : e = c7X := by
    by_contra hne
    have hemem : e ∈ c7Wm := by
      have : e ∈ e :: rest := List.mem_cons_self _ _
      rw [← hsort] at this
      exact (List.perm_insertionSort scoreLE c7Wm).mem_iff.mp this
    exact absurd (hmin c7X hXmem) (not_le.mpr (hscore e hemem hne))
  have hnodup : c7Wm.Nodup := by
    refine List.Nodup.of_map WMItem.id ?_
    decide
  have hXnotin : c7X ∉ rest := by
    have hn2 : (e :: rest).Nodup := by
      rw [← hsort]
      exact ((List.perm_insertionSort scoreLE c7Wm).nodup_iff).mpr hnodup
    rw [heX] at hn2
    exact (List.nodup_cons.mp hn2).1
  have hY0in : c7Item 0 ∈ rest := by
    refine hsurv (c7Item 0) hY0mem c7X hXmem ?_
    refine hscore (c7Item 0) hY0mem ?_
    intro h
    exact absurd (congrArg WMItem.id h) (by decide)
  refine ⟨?_, ?_, by decide⟩
  · rw [hrem]
    simp only [hev]
    exact hXnotin
  · rw [hrem]
    simp only [hev]
    exact hY0in

/-- C7 amended: when adding to working memory exceeds its capacity, the
eviction sorts the buffer by the composite score `importance*10 +
timestamp` and removes a minimal-score item: the evicted item has a score
at most that of every buffered item, and of two buffered items the one
with the strictly higher composite score is never the one evicted.
Importance therefore dominates recency only up to timestamp differences
below ten times the importance difference — not regardless of
timestamps. -/
theorem working_memory_eviction (cap : Nat) (wm : List WMItem)
    (hover : cap < wm.length) :
    ∃ e rest, List.insertionSort scoreLE wm = e :: rest ∧
      evictIfOver cap wm = rest ∧
      (∀ m ∈ wm, score e ≤ score m) ∧
      (∀ a ∈ wm, ∀ b ∈ wm, score b < score a → a ∈ rest) :=
  evictIfOver_spec cap wm hover

def c7wA : WMItem :=
  { id := "a", content := "c",
    metadata := { importance := some 0, timestamp := some 3 } }

def c7wB : WMItem :=
  { id := "b", content := "c",
    metadata := { importance := some 0, timestamp := some 5 } }

/-- C7 witness: capacity 1 with two buffered items of scores 3 and 5. -/
theorem working_memory_eviction_witness :
    ∃ e rest, List.insertionSort scoreLE [c7wA, c7wB] = e :: rest ∧
      evictIfOver 1 [c7wA, c7wB] = rest ∧
      (∀ m ∈ [c7wA, c7wB], score e ≤ score m) ∧
      (∀ a ∈ [c7wA, c7wB], ∀ b ∈ [c7wA, c7wB], score b < score a → a ∈ rest) :=
  working_memory_eviction 1 [c7wA, c7wB] (by decide)

/-! ## Claim theorems: schema export (C8) -/

/-- C8: evaluation of the schema-export code at the failing input.  For a
tool inferred from a signature with one defaultless parameter `x` and one
defaulted parameter `y`, the first `get_schema` call returns the claimed
shape — `required = ["x"]` and no `required` key inside any parameter
object — but, because the scan deletes the `required` markers from
`self.parameters` in place, a second `get_schema` call on the same tool
returns an empty `required` list even though `x` still has no default.
The sibling implementation `FunctionTool.get_schema` (src/tools/base.py)
recomputes `required` from the signature on every call, which shows the
mutation in `MCPTool.get_schema` to be a slip, not intent. -/
theorem get_schema_second_call_required_lost :
    ((get_schema (mcpToolOfSig "calc" "d" [("x", false), ("y", true)])).1).required
      = ["x"] ∧
    ((get_schema (mcpToolOfSig "calc" "d" [("x", false), ("y", true)])).1).properties
      = [("x", { type := "string", required := none }),
         ("y", { type := "string", required := none })] ∧
    ((get_schema ((get_schema
        (mcpToolOfSig "calc" "d" [("x", false), ("y", true)])).2)).1).required
      = [] ∧
    (get_all_schemas ((get_all_schemas
        [mcpToolOfSig "calc" "d" [("x", false), ("y", true)]]).2)).1
      = [{ name := "calc", description := "d",
           properties := [("x", { type := "string", required := none }),
                          ("y", { type := "string", required := none })],
           required := [] }] := by
  refine ⟨rfl, rfl, rfl, rfl⟩

/-! ## Claim theorems: planner fallback (C9) -/

/-- C9: when the planner model output contains no parseable JSON —
the fenced json block, if one is found, fails to parse, and otherwise the
whole response fails to parse — `create_plan` does not raise: it returns
the fallback plan, whose `steps` list holds exactly one step assigning
the entire task description to the agent role `default` with an empty
dependency list. -/
theorem plan_parse_fallback (extractJsonBlock : String → Option String)
    (jsonLoads : String → Option PyVal) (planText taskDescription : String)
    (hfail : match extractJsonBlock planText with
             | some block => jsonLoads block = none
             | none => jsonLoads planText = none) :
    create_plan extractJsonBlock jsonLoads planText taskDescription =
      fallbackPlan taskDescription ∧
    pyValLookup (create_plan extractJsonBlock jsonLoads planText taskDescription)
        "steps" =
      some (.plist [.pdict
        [("id", .pint 1), ("agent", .pstr "default"),
         ("task", .pstr taskDescription),
         ("expected_output", .pstr "Task result"),
         ("dependencies", .plist [])]]) := by
  have heq : create_plan extractJsonBlock jsonLoads planText taskDescription =
      fallbackPlan taskDescription := by
    unfold create_plan
    cases hx : extractJsonBlock planText with
    | some block =>
        rw [hx] at hfail
        dsimp only at hfail ⊢
        rw [hfail]
    | none =>
        rw [hx] at hfail
        dsimp only at hfail ⊢
        rw [hfail]
  refine ⟨heq, ?_⟩
  rw [heq]
  rfl

/-- C9 witness: a model response with no JSON anywhere yields the
single-step default-role fallback plan. -/
theorem plan_parse_fallback_witness :
    create_plan (fun _ => none) (fun _ => none) "oops" "build it" =
      fallbackPlan "build it" :=
  (plan_parse_fallback (fun _ => none) (fun _ => none) "oops" "build it" rfl).1

end Miniluma
